import Mathlib

/-!
A shallow embedding of `flask_whooshalchemy.py` (Flask-WhooshAlchemy):
the query proxy with whoosh-rank reordering of ORM rows, the
`whoosh_search` method, the schema deriver, the per-process index
registry, and the commit-time index writer.  Python dicts are modelled
as association lists with one binding per key (`alGet`/`alSet`), Python
attribute access as `Option`-valued lookup, and raised exceptions as
`Except` errors.
-/

namespace FWA

/-- Python runtime values appearing as record attributes and query
arguments.  The source coerces values with `unicode(...)` before
indexing, ranking and searching. -/
inductive Value where
  | str (s : String)
  | int (n : Int)
deriving DecidableEq, Repr

/-- Models Python `unicode(v)`: a unicode string is returned unchanged,
other values are stringified. -/
def toUnicode : Value → String
  | .str s => s
  | .int n => toString n

/-- An ORM row / record instance: attribute name to value.  Python
`getattr` is association-list lookup; a missing attribute (which raises
`AttributeError`) is modelled as `none`. -/
abbrev Row : Type := List (String × Value)

/-- Association-list lookup, modelling Python dict indexing and
`getattr`. -/
def alGet {α : Type} (m : List (String × α)) (k : String) : Option α :=
  (m.find? (fun p => p.1 == k)).map (·.2)

/-- Association-list update, modelling Python dict assignment
`m[k] = v` (at most one binding per key is kept). -/
def alSet {α : Type} : List (String × α) → String → α → List (String × α)
  | [], k, v => [(k, v)]
  | (k', v') :: rest, k, v =>
    if k' == k then (k, v) :: rest else (k', v') :: alSet rest k v

/-- Rank map attached by `whoosh_search`: primary-key string to 0-based
whoosh rank (`result_ranks` in the source). -/
abbrev RankMap : Type := List (String × Nat)

/-- Exceptions that can escape `_QueryProxy.__iter__`.
`rankingConsistencyError` is the spec's name for the `KeyError` raised
by the dict lookup `self._whoosh_rank[unicode(getattr(row, pk))]` when
a fetched row's key is absent from the rank map; `attributeError` is
the `AttributeError` raised by `getattr` on a row lacking the
primary-key attribute. -/
inductive IterErr where
  | attributeError
  | rankingConsistencyError
deriving DecidableEq, Repr

/-- Signature of the bound whoosh searcher (`_Searcher.__call__`):
query text, limit, optional field subset, `or_` flag; returns the
score-ordered hit list, each hit exposing its stored primary-key
string (`result[self._primary_key_name]`). -/
abbrev SearchFn : Type := String → Option Nat → Option (List String) → Bool → List String

/-- The `_QueryProxy` state: the relational predicate accumulated by the
query object, the constructor arguments of `_QueryProxy.__init__`, and
the optional whoosh rank map.  `modelClassPred`/`modelClassRank` stand
for `self._model.__class__.query` (the class-level proxy cloned by
`_EmptyQuery`). -/
structure QueryProxy where
  pred : Row → Bool
  _primary_key_name : String
  _whoosh_searcher : SearchFn
  modelClassPred : Row → Bool
  modelClassRank : Option RankMap
  _whoosh_rank : Option RankMap

/-- The body of the `for row in super_iter` loop of
`_QueryProxy.__iter__`: pair each fetched row with its whoosh rank
`self._whoosh_rank[unicode(getattr(row, pk))]`, failing on the first
row whose primary key is missing (`AttributeError`) or absent from the
rank map (`KeyError`, the spec's RankingConsistencyError). -/
def rankKeyed (m : RankMap) (pk : String) : List Row → Except IterErr (List (Nat × Row))
  | [] => .ok []
  | r :: rs =>
    match alGet r pk with
    | none => .error .attributeError
    | some v =>
      match alGet m (toUnicode v) with
      | none => .error .rankingConsistencyError
      | some k =>
        match rankKeyed m pk rs with
        | .error e => .error e
        | .ok ks => .ok ((k, r) :: ks)

/-- Models `_QueryProxy.__iter__` run to exhaustion against a store
`db`: the relational iteration is `db.filter q.pred` in native storage
order; with no rank map it is returned unchanged, otherwise the
`heapq` push/pop sequence over `(rank, row)` pairs emits rows in
non-decreasing rank order, modelled as a sort keyed on the rank
(the properties proved below are independent of how the heap breaks
rank ties). -/
def QueryProxy.iter (q : QueryProxy) (db : List Row) : Except IterErr (List Row) :=
  let superIter := db.filter q.pred
  match q._whoosh_rank with
  | none => .ok superIter
  | some m =>
    match rankKeyed m q._primary_key_name superIter with
    | .error e => .error e
    | .ok keyed =>
      .ok ((List.insertionSort (fun a b : Nat × Row => a.1 ≤ b.1) keyed).map (·.2))

/-- The whoosh rank of a row as `__iter__` computes it:
`self._whoosh_rank[unicode(getattr(row, pk))]`, `none` when either
lookup fails. -/
def rowKey (m : RankMap) (pk : String) (r : Row) : Option Nat :=
  (alGet r pk).bind (fun v => alGet m (toUnicode v))

/-- Rank comparison between rows: whenever both rows have a whoosh
rank, the first one's rank is no larger. -/
def rankLE (m : RankMap) (pk : String) (a b : Row) : Prop :=
  ∀ ka kb, rowKey m pk a = some ka → rowKey m pk b = some kb → ka ≤ kb

theorem rankKeyed_ok_map (m : RankMap) (pk : String) :
    ∀ (l : List Row) (ks : List (Nat × Row)),
      rankKeyed m pk l = .ok ks → ks.map (·.2) = l := by
  intro l
  induction l with
  | nil => intro ks h; cases h; rfl
  | cons r rs ih =>
    intro ks h
    cases hv : alGet r pk with
    | none => simp [rankKeyed, hv] at h
    | some v =>
      cases hk : alGet m (toUnicode v) with
      | none => simp [rankKeyed, hv, hk] at h
      | some k =>
        cases hrec : rankKeyed m pk rs with
        | error e => simp [rankKeyed, hv, hk, hrec] at h
        | ok ks' =>
          simp only [rankKeyed, hv, hk, hrec, Except.ok.injEq] at h
          subst h
          simp [ih ks' hrec]

theorem rankKeyed_ok_mem (m : RankMap) (pk : String) :
    ∀ (l : List Row) (ks : List (Nat × Row)),
      rankKeyed m pk l = .ok ks → ∀ p ∈ ks, rowKey m pk p.2 = some p.1 := by
  intro l
  induction l with
  | nil => intro ks h; cases h; intro p hp; cases hp
  | cons r rs ih =>
    intro ks h
    cases hv : alGet r pk with
    | none => simp [rankKeyed, hv] at h
    | some v =>
      cases hk : alGet m (toUnicode v) with
      | none => simp [rankKeyed, hv, hk] at h
      | some k =>
        cases hrec : rankKeyed m pk rs with
        | error e => simp [rankKeyed, hv, hk, hrec] at h
        | ok ks' =>
          simp only [rankKeyed, hv, hk, hrec, Except.ok.injEq] at h
          subst h
          intro p hp
          cases hp with
          | head => simp [rowKey, hv, hk]
          | tail _ hp' => exact ih ks' hrec p hp'

theorem rankKeyed_error_of_missing (m : RankMap) (pk : String) :
    ∀ (l : List Row),
      (∀ r ∈ l, (alGet r pk).isSome) →
      (∃ r ∈ l, rowKey m pk r = none) →
      rankKeyed m pk l = .error .rankingConsistencyError := by
  intro l
  induction l with
  | nil => intro _ hbad; obtain ⟨r, hr, _⟩ := hbad; cases hr
  | cons r rs ih =>
    intro hall hbad
    have hs : (alGet r pk).isSome := hall r (List.mem_cons_self r rs)
    obtain ⟨v, hv⟩ := Option.isSome_iff_exists.mp hs
    cases hk : alGet m (toUnicode v) with
    | none => simp [rankKeyed, hv, hk]
    | some k =>
      obtain ⟨b, hb, hbnone⟩ := hbad
      cases hb with
      | head =>
        rw [rowKey, hv] at hbnone
        simp [hk] at hbnone
      | tail _ hb' =>
        have hrec := ih (fun x hx => hall x (List.mem_cons_of_mem r hx)) ⟨b, hb', hbnone⟩
        simp [rankKeyed, hv, hk, hrec]

/-- C1: iterating a query proxy with an attached rank map yields exactly
the rows of the underlying relational iteration (`db.filter q.pred`),
re-emitted in non-decreasing rank order; with no rank map attached,
iteration returns the relational iterator unchanged. -/
theorem c1_iter_rank_order (q : QueryProxy) (db : List Row) :
    (q._whoosh_rank = none → q.iter db = .ok (db.filter q.pred)) ∧
    (∀ (m : RankMap) (out : List Row),
      q._whoosh_rank = some m → q.iter db = .ok out →
      out.Perm (db.filter q.pred) ∧
      out.Pairwise (rankLE m q._primary_key_name)) := by
  constructor
  · intro h
    simp [QueryProxy.iter, h]
  · intro m out hm hout
    simp only [QueryProxy.iter, hm] at hout
    cases hk : rankKeyed m q._primary_key_name (db.filter q.pred) with
    | error e => rw [hk] at hout; cases hout
    | ok keyed =>
      rw [hk] at hout
      simp only [Except.ok.injEq] at hout
      subst hout
      have hmap := rankKeyed_ok_map m q._primary_key_name _ keyed hk
      have hmem := rankKeyed_ok_mem m q._primary_key_name _ keyed hk
      have hperm : (List.insertionSort (fun a b : Nat × Row => a.1 ≤ b.1) keyed).Perm keyed :=
        List.perm_insertionSort _ keyed
      constructor
      · have := hperm.map (·.2)
        rw [hmap] at this
        exact this
      · letI : IsTotal (Nat × Row) (fun a b => a.1 ≤ b.1) :=
          ⟨fun a b => Nat.le_total a.1 b.1⟩
        letI : IsTrans (Nat × Row) (fun a b => a.1 ≤ b.1) :=
          ⟨fun _ _ _ hab hbc => Nat.le_trans hab hbc⟩
        have hs := List.sorted_insertionSort (fun a b : Nat × Row => a.1 ≤ b.1) keyed
        rw [List.pairwise_map]
        refine List.Pairwise.imp_of_mem ?_ hs
        intro a b ha hb hab
        have ha' : rowKey m q._primary_key_name a.2 = some a.1 :=
          hmem a (hperm.mem_iff.mp ha)
        have hb' : rowKey m q._primary_key_name b.2 = some b.1 :=
          hmem b (hperm.mem_iff.mp hb)
        intro ka kb h1 h2
        rw [ha'] at h1
        rw [hb'] at h2
        cases h1
        cases h2
        exact hab

/-- C2: iterating a query proxy with an attached rank map, where every
fetched row has the primary-key attribute but some fetched row's
stringified primary key is absent from the rank map, fails fast with
`rankingConsistencyError` instead of reordering or dropping the row. -/
theorem c2_missing_rank_fails_fast (q : QueryProxy) (db : List Row) (m : RankMap)
    (hm : q._whoosh_rank = some m)
    (hall : ∀ r ∈ db.filter q.pred, (alGet r q._primary_key_name).isSome)
    (hbad : ∃ r ∈ db.filter q.pred, rowKey m q._primary_key_name r = none) :
    q.iter db = .error .rankingConsistencyError := by
  simp only [QueryProxy.iter, hm]
  rw [rankKeyed_error_of_missing m q._primary_key_name (db.filter q.pred) hall hbad]

/-- Sample rows and proxies used to witness the iteration theorems. -/
def sampleRow1 : Row := [("id", Value.int 1), ("title", Value.str "red fox")]

def sampleRow2 : Row := [("id", Value.int 2), ("title", Value.str "blue sky")]

def sampleRank : RankMap := [("2", 0), ("1", 1)]

def sampleSearcher : SearchFn := fun _ _ _ _ => ["2", "1"]

def sampleProxy : QueryProxy :=
  { pred := fun _ => true
    _primary_key_name := "id"
    _whoosh_searcher := sampleSearcher
    modelClassPred := fun _ => true
    modelClassRank := none
    _whoosh_rank := some sampleRank }

theorem c1_iter_rank_order_witness :
    ([sampleRow2, sampleRow1] : List Row).Perm
        (([sampleRow1, sampleRow2] : List Row).filter sampleProxy.pred) ∧
    ([sampleRow2, sampleRow1] : List Row).Pairwise (rankLE sampleRank "id") :=
  (c1_iter_rank_order sampleProxy [sampleRow1, sampleRow2]).2
    sampleRank [sampleRow2, sampleRow1] rfl rfl

/-- Proxy whose rank map lacks the key of `sampleRow1`. -/
def sampleProxyBad : QueryProxy :=
  { sampleProxy with _whoosh_rank := some [("2", 0)] }

theorem c2_missing_rank_fails_fast_witness :
    sampleProxyBad.iter [sampleRow1, sampleRow2] =
      .error .rankingConsistencyError :=
  c2_missing_rank_fails_fast sampleProxyBad [sampleRow1, sampleRow2]
    [("2", 0)] rfl (by decide) (by decide)

theorem alGet_cons_self {α : Type} (k : String) (v' : α) (rest : List (String × α)) :
    alGet ((k, v') :: rest) k = some v' := by
  simp only [alGet]
  rw [List.find?_cons_of_pos] <;> simp

theorem alGet_cons_ne {α : Type} (k' : String) (v' : α) (rest : List (String × α))
    (k : String) (h : k' ≠ k) : alGet ((k', v') :: rest) k = alGet rest k := by
  simp only [alGet]
  rw [List.find?_cons_of_neg]
  simpa using h

theorem alGet_alSet_self {α : Type} (m : List (String × α)) (k : String) (v : α) :
    alGet (alSet m k v) k = some v := by
  induction m with
  | nil => exact alGet_cons_self k v []
  | cons p rest ih =>
    rcases p with ⟨k', v'⟩
    by_cases h : k' = k
    · subst h
      rw [alSet, if_pos (by simp)]
      exact alGet_cons_self k' v rest
    · rw [alSet, if_neg (by simpa using h)]
      rw [alGet_cons_ne k' v' (alSet rest k v) k h]
      exact ih

theorem alGet_alSet_ne {α : Type} (m : List (String × α)) (k k' : String) (v : α)
    (h : k' ≠ k) : alGet (alSet m k v) k' = alGet m k' := by
  induction m with
  | nil =>
    show alGet ((k, v) :: []) k' = alGet [] k'
    rw [alGet_cons_ne k v [] k' (Ne.symm h)]
  | cons p rest ih =>
    rcases p with ⟨k'', v''⟩
    by_cases hk : k'' = k
    · subst hk
      rw [alSet, if_pos (by simp)]
      rw [alGet_cons_ne k'' v rest k' (Ne.symm h), alGet_cons_ne k'' v'' rest k' (Ne.symm h)]
    · rw [alSet, if_neg (by simpa using hk)]
      by_cases hk' : k'' = k'
      · subst hk'
        rw [alGet_cons_self k'' v'' (alSet rest k v), alGet_cons_self k'' v'' rest]
      · rw [alGet_cons_ne k'' v'' (alSet rest k v) k' hk', alGet_cons_ne k'' v'' rest k' hk']
        exact ih

/-- Models `_EmptyQuery(model)`:
`model.__class__.query.filter('null')`, the class-level query cloned
with the literal SQL criterion `null` appended; a `NULL` WHERE clause
is never satisfied, so the criterion holds of no row. -/
def sqlNullCriterion : Row → Bool := fun _ => false

/-- The query returned by `_EmptyQuery`: a clone of the class-level
query object with the always-false criterion added. -/
def _EmptyQuery (q : QueryProxy) : QueryProxy :=
  { q with
      pred := fun r => q.modelClassPred r && sqlNullCriterion r
      _whoosh_rank := q.modelClassRank }

/-- The `for rank, result in enumerate(results)` loop of
`whoosh_search` filling the `result_ranks` dict. -/
def buildRanksAux : Nat → List String → RankMap → RankMap
  | _, [], m => m
  | i, pk :: rest, m => buildRanksAux (i + 1) rest (alSet m pk i)

/-- The rank map `result_ranks` built from the score-ordered hit
list. -/
def buildRanks (hits : List String) : RankMap := buildRanksAux 0 hits []

/-- Models `_QueryProxy.whoosh_search`: coerce the query argument to
unicode, run the bound searcher, return `_EmptyQuery` on zero hits,
otherwise clone the query with the relational predicate restricted to
primary keys in the hit set (`in_(result_set)`, modelled as membership
of the stringified key among the stored hit keys) and the rank map
attached.  The hit list already carries each hit's stored primary-key
string (`result[self._primary_key_name]`). -/
def QueryProxy.whoosh_search (q : QueryProxy) (query : Value) (limit : Option Nat)
    (fields : Option (List String)) (or_ : Bool) : QueryProxy :=
  let queryText := toUnicode query
  let results := q._whoosh_searcher queryText limit fields or_
  if results.length = 0 then _EmptyQuery q
  else
    { q with
        pred := fun r =>
          q.pred r &&
            (match alGet r q._primary_key_name with
             | some v => results.contains (toUnicode v)
             | none => false)
        _whoosh_rank := some (buildRanks results) }

theorem emptyQuery_iter (q : QueryProxy) (db : List Row) :
    (_EmptyQuery q).iter db = .ok [] := by
  have hfilter : db.filter (_EmptyQuery q).pred = [] := by
    simp [_EmptyQuery, sqlNullCriterion]
  simp only [QueryProxy.iter, hfilter]
  cases hr : (_EmptyQuery q)._whoosh_rank <;> simp [rankKeyed, List.insertionSort]

theorem alGet_buildRanksAux_of_not_mem (k : String) :
    ∀ (l : List String) (i : Nat) (m : RankMap), k ∉ l →
      alGet (buildRanksAux i l m) k = alGet m k := by
  intro l
  induction l with
  | nil => intro i m _; rfl
  | cons pk rest ih =>
    intro i m hk
    rw [buildRanksAux]
    rw [ih (i + 1) (alSet m pk i) (fun hmem => hk (List.mem_cons_of_mem pk hmem))]
    exact alGet_alSet_ne m pk k i (fun he => hk (he ▸ List.mem_cons_self pk rest))

theorem alGet_buildRanksAux_getElem :
    ∀ (l : List String), l.Nodup →
      ∀ (i : Nat) (m : RankMap) (j : Nat) (pk : String), l[j]? = some pk →
        alGet (buildRanksAux i l m) pk = some (i + j) := by
  intro l
  induction l with
  | nil => intro _ i m j pk h; cases h
  | cons hd rest ih =>
    intro hnd i m j pk h
    cases j with
    | zero =>
      simp only [List.getElem?_cons_zero, Option.some.injEq] at h
      subst h
      rw [buildRanksAux]
      rw [alGet_buildRanksAux_of_not_mem hd rest (i + 1) (alSet m hd i)
        (List.Nodup.not_mem hnd)]
      rw [alGet_alSet_self]
      rfl
    | succ j' =>
      simp only [List.getElem?_cons_succ] at h
      have := ih (List.Nodup.of_cons hnd) (i + 1) (alSet m hd i) j' pk h
      rw [buildRanksAux, this]
      congr 1
      omega

/-- C10: the public text-search method coerces any query argument to
its unicode stringification before invoking the searcher, so searching
with a non-unicode value behaves identically to searching with its
unicode stringification. -/
theorem c10_query_coerced_to_unicode (q : QueryProxy) (query : Value)
    (limit : Option Nat) (fields : Option (List String)) (or_ : Bool) :
    q.whoosh_search query limit fields or_ =
      q.whoosh_search (Value.str (toUnicode query)) limit fields or_ := rfl

/-- C5: when the searcher returns zero hits, `whoosh_search` returns the
`_EmptyQuery` result, whose criterion holds of no row and whose
iteration yields zero rows without raising an error, for every store
contents. -/
theorem c5_zero_hits_zero_rows (q : QueryProxy) (query : Value)
    (limit : Option Nat) (fields : Option (List String)) (or_ : Bool)
    (db : List Row)
    (h : q._whoosh_searcher (toUnicode query) limit fields or_ = []) :
    (q.whoosh_search query limit fields or_).iter db = .ok [] ∧
    ∀ r, (q.whoosh_search query limit fields or_).pred r = false := by
  have hws : q.whoosh_search query limit fields or_ = _EmptyQuery q := by
    simp only [QueryProxy.whoosh_search, h]
    rfl
  rw [hws]
  refine ⟨emptyQuery_iter q db, ?_⟩
  intro r
  simp [_EmptyQuery, sqlNullCriterion]

/-- C4: on a non-empty hit list with distinct keys, `whoosh_search`
returns a query whose relational criterion is the original criterion
conjoined with membership of the row's stringified primary key in the
hit set, and attaches the rank map that assigns each hit key its
0-based position in the score-ordered hit list and binds no other
key. -/
theorem c4_search_restricts_and_ranks (q : QueryProxy) (query : Value)
    (limit : Option Nat) (fields : Option (List String)) (or_ : Bool)
    (results : List String)
    (hres : q._whoosh_searcher (toUnicode query) limit fields or_ = results)
    (hne : results ≠ []) (hnd : results.Nodup) :
    (∀ r v, alGet r q._primary_key_name = some v →
      (q.whoosh_search query limit fields or_).pred r =
        (q.pred r && results.contains (toUnicode v))) ∧
    (q.whoosh_search query limit fields or_)._whoosh_rank =
      some (buildRanks results) ∧
    (∀ (i : Nat) (pk : String), results[i]? = some pk →
      alGet (buildRanks results) pk = some i) ∧
    (∀ pk, pk ∉ results → alGet (buildRanks results) pk = none) := by
  have hlen : ¬ results.length = 0 := by
    simpa [List.length_eq_zero] using hne
  refine ⟨?_, ?_, ?_, ?_⟩
  · intro r v hv
    simp [QueryProxy.whoosh_search, hres, hlen, hv]
  · simp [QueryProxy.whoosh_search, hres, hlen]
  · intro i pk h
    have := alGet_buildRanksAux_getElem results hnd 0 [] i pk h
    simpa [buildRanks] using this
  · intro pk h
    rw [buildRanks, alGet_buildRanksAux_of_not_mem pk results 0 [] h]
    rfl

/-- SQLAlchemy column types relevant to the schema deriver.  In
SQLAlchemy, `Text` and `Unicode` are subclasses of `String`, so the
source's `isinstance(field.type, (Text, String, Unicode))` check holds
exactly of the textual types. -/
inductive SqlType where
  | text
  | string
  | unicode
  | integer
  | boolean
  | other
deriving DecidableEq, Repr

/-- The `isinstance(field.type, (sqlalchemy.types.Text, String, Unicode))`
test of `_get_whoosh_schema_and_primary`. -/
def isTextual : SqlType → Bool
  | .text => true
  | .string => true
  | .unicode => true
  | _ => false

/-- A column of `model.__table__.columns`. -/
structure Column where
  name : String
  primary_key : Bool
  type : SqlType
deriving DecidableEq, Repr

/-- Whoosh field kinds used by the deriver: `ID` stands for
`whoosh.fields.ID(stored=True, unique=True)` and `TEXT` for
`whoosh.fields.TEXT(analyzer=StemmingAnalyzer())`, the analyzed-text
field with a stemming analyzer. -/
inductive WhooshField where
  | ID
  | TEXT
deriving DecidableEq, Repr

/-- The `schema` dict built by `_get_whoosh_schema_and_primary`. -/
abbrev Schema : Type := List (String × WhooshField)

/-- A record type: class name, table columns and the `__searchable__`
attribute (`none` models a class without it, `hasattr` false). -/
structure RecordClass where
  name : String
  table_columns : List Column
  searchable : Option (List String)
deriving DecidableEq, Repr

/-- A record instance: its class and its attribute values. -/
structure Record where
  cls : RecordClass
  data : Row
deriving DecidableEq, Repr

/-- One iteration of the `for field in model.__table__.columns` loop of
`_get_whoosh_schema_and_primary`: first the primary-key `if` assigns
`ID` and records the primary name, then the searchable `if` assigns
`TEXT` for textual searchable columns (overwriting a previous entry
under the same name, as Python dict assignment does). -/
def schemaStep (searchable : List String) (field : Column)
    (s : Schema × Option String) : Schema × Option String :=
  let s1 := if field.primary_key then (alSet s.1 field.name .ID, some field.name) else s
  let s2 :=
    if searchable.contains field.name && isTextual field.type then
      alSet s1.1 field.name .TEXT
    else s1.1
  (s2, s1.2)

/-- The column loop of `_get_whoosh_schema_and_primary`. -/
def _get_whoosh_schema_and_primary_aux (searchable : List String) :
    List Column → Schema × Option String → Schema × Option String
  | [], s => s
  | field :: rest, s =>
    _get_whoosh_schema_and_primary_aux searchable rest (schemaStep searchable field s)

/-- Models `_get_whoosh_schema_and_primary(model)`: derives the whoosh
schema dict and the primary-key field name from the class-level column
metadata and `__searchable__` list (the source receives an instance but
reads only class attributes; a class without `__searchable__` would
raise `AttributeError` in Python and is not passed to this function by
the source). -/
def _get_whoosh_schema_and_primary (cls : RecordClass) : Schema × Option String :=
  _get_whoosh_schema_and_primary_aux (cls.searchable.getD []) cls.table_columns ([], none)

theorem schemaStep_alGet_ne (searchable : List String) (field : Column)
    (s : Schema × Option String) (k : String) (h : k ≠ field.name) :
    alGet (schemaStep searchable field s).1 k = alGet s.1 k := by
  rcases s with ⟨schema, primary⟩
  unfold schemaStep
  have hne := fun (m : Schema) (v : WhooshField) => alGet_alSet_ne m field.name k v h
  by_cases hpk : field.primary_key = true <;>
    by_cases hmem : field.name ∈ searchable <;>
      by_cases htl : isTextual field.type = true <;>
        simp [hpk, hmem, htl, hne]

theorem schemaAux_alGet_of_not_mem (searchable : List String) :
    ∀ (cols : List Column) (s : Schema × Option String) (k : String),
      k ∉ cols.map Column.name →
      alGet (_get_whoosh_schema_and_primary_aux searchable cols s).1 k = alGet s.1 k := by
  intro cols
  induction cols with
  | nil => intro s k _; rfl
  | cons field rest ih =>
    intro s k hk
    rw [_get_whoosh_schema_and_primary_aux]
    rw [ih (schemaStep searchable field s) k
      (fun hmem => hk (List.mem_cons_of_mem _ hmem))]
    exact schemaStep_alGet_ne searchable field s k
      (fun he => hk (by simp [he]))

theorem schemaStep_alGet_self (searchable : List String) (field : Column)
    (s : Schema × Option String) :
    alGet (schemaStep searchable field s).1 field.name =
      (if searchable.contains field.name && isTextual field.type then
        some WhooshField.TEXT
      else if field.primary_key then some WhooshField.ID
      else alGet s.1 field.name) := by
  rcases s with ⟨schema, primary⟩
  unfold schemaStep
  have hself := fun (m : Schema) (v : WhooshField) => alGet_alSet_self m field.name v
  by_cases hpk : field.primary_key = true <;>
    by_cases hmem : field.name ∈ searchable <;>
      by_cases htl : isTextual field.type = true <;>
        simp [hpk, hmem, htl, hself]

theorem schemaAux_alGet_mem (searchable : List String) :
    ∀ (cols : List Column) (s : Schema × Option String) (col : Column),
      (cols.map Column.name).Nodup → col ∈ cols →
      alGet (_get_whoosh_schema_and_primary_aux searchable cols s).1 col.name =
        (if searchable.contains col.name && isTextual col.type then
          some WhooshField.TEXT
        else if col.primary_key then some WhooshField.ID
        else alGet s.1 col.name) := by
  intro cols
  induction cols with
  | nil => intro s col _ hmem; cases hmem
  | cons field rest ih =>
    intro s col hnd hmem
    rw [List.map_cons] at hnd
    have hnd' := List.nodup_cons.mp hnd
    cases hmem with
    | head =>
      rw [_get_whoosh_schema_and_primary_aux]
      rw [schemaAux_alGet_of_not_mem searchable rest (schemaStep searchable field s)
        field.name hnd'.1]
      exact schemaStep_alGet_self searchable field s
    | tail _ hmem' =>
      have hne : col.name ≠ field.name := by
        intro he
        exact hnd'.1 (he ▸ List.mem_map_of_mem Column.name hmem')
      rw [_get_whoosh_schema_and_primary_aux]
      rw [ih (schemaStep searchable field s) col hnd'.2 hmem']
      rw [schemaStep_alGet_ne searchable field s col.name hne]

/-- Record type whose primary-key column is itself searchable and of a
textual type. -/
def badPkClass : RecordClass :=
  { name := "B"
    table_columns := [⟨"id", true, SqlType.text⟩]
    searchable := some ["id"] }

/-- C6 counterexample: for a record type whose primary-key column is
searchable and textual, the derived schema maps the primary-key column
to the analyzed-text field, not to an identifier field — the searchable
assignment overwrites the `ID` entry in the same loop iteration. -/
theorem c6_counterexample_pk_searchable_textual :
    alGet (_get_whoosh_schema_and_primary badPkClass).1 "id" = some WhooshField.TEXT ∧
    ¬ alGet (_get_whoosh_schema_and_primary badPkClass).1 "id" = some WhooshField.ID := by
  decide

/-- C6 amended: in the derived schema, a column maps to the analyzed
stemming-text field iff it is searchable and textual (this assignment
overwrites the identifier entry when the primary-key column is itself
searchable and textual); otherwise the primary-key column maps to the
identifier field; all other columns — including searchable non-textual
ones, which are silently skipped — are absent from the schema. -/
theorem c6_schema_mapping (cls : RecordClass) (sList : List String)
    (hs : cls.searchable = some sList)
    (hnd : (cls.table_columns.map Column.name).Nodup)
    (col : Column) (hcol : col ∈ cls.table_columns) :
    alGet (_get_whoosh_schema_and_primary cls).1 col.name =
      (if sList.contains col.name && isTextual col.type then
        some WhooshField.TEXT
      else if col.primary_key then some WhooshField.ID
      else none) := by
  unfold _get_whoosh_schema_and_primary
  rw [hs]
  exact schemaAux_alGet_mem sList cls.table_columns ([], none) col hnd hcol

/-- Record type used to witness the schema-derivation theorem: integer
primary key, searchable textual column, searchable non-textual
column. -/
def sampleClass : RecordClass :=
  { name := "Article"
    table_columns :=
      [⟨"id", true, SqlType.integer⟩,
       ⟨"title", false, SqlType.text⟩,
       ⟨"count", false, SqlType.integer⟩]
    searchable := some ["title", "count"] }

theorem c6_schema_mapping_witness :
    alGet (_get_whoosh_schema_and_primary sampleClass).1 "id" = some WhooshField.ID ∧
    alGet (_get_whoosh_schema_and_primary sampleClass).1 "title" = some WhooshField.TEXT ∧
    alGet (_get_whoosh_schema_and_primary sampleClass).1 "count" = none := by
  refine ⟨?_, ?_, ?_⟩
  · rw [c6_schema_mapping sampleClass ["title", "count"] rfl (by decide)
      ⟨"id", true, SqlType.integer⟩ (by decide)]
    decide
  · rw [c6_schema_mapping sampleClass ["title", "count"] rfl (by decide)
      ⟨"title", false, SqlType.text⟩ (by decide)]
    decide
  · rw [c6_schema_mapping sampleClass ["title", "count"] rfl (by decide)
      ⟨"count", false, SqlType.integer⟩ (by decide)]
    decide

/-- Operations delivered by flask-sqlalchemy's `models_committed`
signal, the second component of each change pair. -/
inductive Op where
  | insert
  | update
  | delete
deriving DecidableEq, Repr

/-- A change record as received by `_after_flush`: `(record, operation)`. -/
abbrev Change : Type := Record × Op

/-- The test `change[1] in ('update', 'insert')`. -/
def isUpsert : Op → Bool
  | .update => true
  | .insert => true
  | .delete => false

/-- Models `bytype.setdefault(name, []).append(v)`: append to the
list bound to `name`, creating the binding if absent. -/
def alAppend {α : Type} : List (String × List α) → String → α → List (String × List α)
  | [], k, v => [(k, [v])]
  | (k', vs) :: rest, k, v =>
    if k' == k then (k', vs ++ [v]) :: rest else (k', vs) :: alAppend rest k v

/-- The body of the grouping loop of `_after_flush`: changes on classes
without `__searchable__` are dropped, the rest are appended under their
class name as `(is_upsert, record)`. -/
def collectStep (m : List (String × List (Bool × Record))) (ch : Change) :
    List (String × List (Bool × Record)) :=
  if ch.1.cls.searchable.isSome then
    alAppend m ch.1.cls.name (isUpsert ch.2, ch.1)
  else m

/-- The `bytype` dict built by the first loop of `_after_flush`. -/
def collectByType (changes : List Change) : List (String × List (Bool × Record)) :=
  changes.foldl collectStep []

/-- Description of the collector output for one type name, following
the spec's words (for comparison with `collectByType`): the type's
changes in input order, each mapped to the pair of the
is-insert-or-update flag and the record, keeping only changes whose
class declares `__searchable__`. -/
def collectedSpec (changes : List Change) (name : String) : List (Bool × Record) :=
  (changes.filter
      (fun ch => ch.1.cls.name == name && ch.1.cls.searchable.isSome)).map
    (fun ch => ((ch.2 == Op.insert || ch.2 == Op.update), ch.1))

theorem isUpsert_eq (o : Op) : isUpsert o = (o == Op.insert || o == Op.update) := by
  cases o <;> rfl

theorem alGet_alAppend_self {α : Type} (m : List (String × List α)) (k : String) (v : α) :
    alGet (alAppend m k v) k = some ((alGet m k).getD [] ++ [v]) := by
  induction m with
  | nil => simp [alAppend, alGet_cons_self, alGet]
  | cons p rest ih =>
    rcases p with ⟨k', vs⟩
    by_cases h : k' = k
    · subst h
      rw [alAppend, if_pos (by simp)]
      rw [alGet_cons_self, alGet_cons_self]
      rfl
    · rw [alAppend, if_neg (by simpa using h)]
      rw [alGet_cons_ne k' vs _ k h, alGet_cons_ne k' vs rest k h]
      exact ih

theorem alGet_alAppend_ne {α : Type} (m : List (String × List α)) (k k' : String)
    (v : α) (h : k' ≠ k) : alGet (alAppend m k v) k' = alGet m k' := by
  induction m with
  | nil =>
    show alGet ((k, [v]) :: []) k' = alGet [] k'
    rw [alGet_cons_ne k [v] [] k' (Ne.symm h)]
  | cons p rest ih =>
    rcases p with ⟨k'', vs⟩
    by_cases hk : k'' = k
    · subst hk
      rw [alAppend, if_pos (by simp)]
      rw [alGet_cons_ne k'' (vs ++ [v]) rest k' (Ne.symm h),
        alGet_cons_ne k'' vs rest k' (Ne.symm h)]
    · rw [alAppend, if_neg (by simpa using hk)]
      by_cases hk' : k'' = k'
      · subst hk'
        rw [alGet_cons_self k'' vs (alAppend rest k v), alGet_cons_self k'' vs rest]
      · rw [alGet_cons_ne k'' vs (alAppend rest k v) k' hk',
          alGet_cons_ne k'' vs rest k' hk']
        exact ih

theorem collect_foldl (name : String) :
    ∀ (changes : List Change) (acc : List (String × List (Bool × Record))),
      alGet (changes.foldl collectStep acc) name =
        (match alGet acc name with
         | none =>
           if collectedSpec changes name = [] then none
           else some (collectedSpec changes name)
         | some cur => some (cur ++ collectedSpec changes name)) := by
  intro changes
  induction changes with
  | nil =>
    intro acc
    cases h : alGet acc name <;> simp [collectedSpec, h]
  | cons ch rest ih =>
    intro acc
    rw [List.foldl_cons]
    rw [ih (collectStep acc ch)]
    by_cases hsearch : ch.1.cls.searchable.isSome = true
    · by_cases hname : ch.1.cls.name = name
      · have hstep : alGet (collectStep acc ch) name =
            some ((alGet acc name).getD [] ++ [(isUpsert ch.2, ch.1)]) := by
          rw [collectStep, if_pos hsearch, hname, alGet_alAppend_self]
        have hspec : collectedSpec (ch :: rest) name =
            ((ch.2 == Op.insert || ch.2 == Op.update), ch.1) :: collectedSpec rest name := by
          simp [collectedSpec, hname, hsearch]
        rw [hstep, hspec, isUpsert_eq]
        cases hacc : alGet acc name <;> simp [hacc]
      · have hstep : alGet (collectStep acc ch) name = alGet acc name := by
          rw [collectStep, if_pos hsearch]
          exact alGet_alAppend_ne acc ch.1.cls.name name _ (Ne.symm hname)
        have hspec : collectedSpec (ch :: rest) name = collectedSpec rest name := by
          simp [collectedSpec, hname]
        rw [hstep, hspec]
    · have hstep : collectStep acc ch = acc := by
        rw [collectStep, if_neg hsearch]
      have hspec : collectedSpec (ch :: rest) name = collectedSpec rest name := by
        simp only [Bool.not_eq_true] at hsearch
        simp [collectedSpec, hsearch]
      rw [hstep, hspec]

/-- C7: for every input change sequence and type name, the collector's
dict binds the name exactly when some change on a searchable class of
that name occurred, to the ordered list of that type's changes mapped
to (is-insert-or-update, record) in input order — so later changes to
the same primary key stay later in the per-type list. -/
theorem c7_collector_groups_by_type (changes : List Change) (name : String) :
    alGet (collectByType changes) name =
      (if collectedSpec changes name = [] then none
       else some (collectedSpec changes name)) := by
  rw [collectByType, collect_foldl name changes []]
  rfl

/-- Exceptions escaping the per-type write loop of `_after_flush` (the
source has no handler around it, so they propagate to the
commit-notification caller).  `missingSearchableField` is the
`AttributeError('%s does not have __searchable__ field %s')` the loop
raises when a declared searchable attribute is absent on the instance —
the spec's MissingSearchableField; `attributeError` is the bare
`AttributeError` from `getattr(v, primary_field)` on a record lacking
the primary-key attribute. -/
inductive WriteErr where
  | missingSearchableField (model fieldName : String)
  | attributeError
deriving DecidableEq, Repr

/-- A whoosh document as the writer submits it: stringified field
values keyed by field name (`**attrs`). -/
abbrev Doc : Type := List (String × String)

/-- The `for key in searchable` loop of `_after_flush`:
`attrs[key] = unicode(getattr(v, key))`, re-raising a missing attribute
as the searchable-field mismatch error for the first absent key. -/
def mkAttrs (model : String) (v : Record) :
    List String → Except WriteErr (List (String × String))
  | [] => .ok []
  | key :: rest =>
    match alGet v.data key with
    | none => .error (.missingSearchableField model key)
    | some val =>
      match mkAttrs model v rest with
      | .error e => .error e
      | .ok attrs => .ok ((key, toUnicode val) :: attrs)

/-- The full document built for an upserted record:
the searchable attributes followed by
`attrs[primary_field] = unicode(getattr(v, primary_field))`. -/
def mkDoc (model : String) (searchable : List String) (primary : String)
    (v : Record) : Except WriteErr Doc :=
  match mkAttrs model v searchable with
  | .error e => .error e
  | .ok attrs =>
    match alGet v.data primary with
    | none => .error .attributeError
    | some pv => .ok (alSet attrs primary (toUnicode pv))

/-- Models `writer.delete_by_term(field, value)`: remove every document
whose `field` equals `value`. -/
def delete_by_term (ix : List Doc) (field val : String) : List Doc :=
  ix.filter (fun d => alGet d field != some val)

/-- Models `writer.update_document(**attrs)` against a schema whose only
unique field is the identifier: any existing document with the same
identifier value is removed, then the new document is added — the
replace-not-merge upsert the spec describes for the index-writer
interface. -/
def update_document (ix : List Doc) (primary : String) (doc : Doc) : List Doc :=
  match alGet doc primary with
  | some pv => delete_by_term ix primary pv ++ [doc]
  | none => ix ++ [doc]

/-- The per-type write loop of `_after_flush`: upserts build the full
document from the live record and update by identifier, deletes remove
by the stringified primary key; the first raised exception aborts the
batch. -/
def writeChanges (model : String) (searchable : List String) (primary : String) :
    List (Bool × Record) → List Doc → Except WriteErr (List Doc)
  | [], ix => .ok ix
  | (true, v) :: rest, ix =>
    match mkDoc model searchable primary v with
    | .error e => .error e
    | .ok d => writeChanges model searchable primary rest (update_document ix primary d)
  | (false, v) :: rest, ix =>
    match alGet v.data primary with
    | none => .error .attributeError
    | some pv =>
      writeChanges model searchable primary rest (delete_by_term ix primary (toUnicode pv))

theorem mkAttrs_error_of_missing (model : String) (v : Record) :
    ∀ (searchable : List String), (∃ k ∈ searchable, alGet v.data k = none) →
      ∃ k', mkAttrs model v searchable = .error (.missingSearchableField model k') ∧
        k' ∈ searchable ∧ alGet v.data k' = none := by
  intro searchable
  induction searchable with
  | nil => intro h; obtain ⟨k, hk, _⟩ := h; cases hk
  | cons key rest ih =>
    intro h
    cases hv : alGet v.data key with
    | none =>
      refine ⟨key, ?_, List.mem_cons_self key rest, hv⟩
      rw [mkAttrs, hv]
    | some val =>
      obtain ⟨k, hk, hnone⟩ := h
      have hk' : k ∈ rest := by
        cases hk with
        | head => rw [hv] at hnone; cases hnone
        | tail _ h' => exact h'
      obtain ⟨k', herr, hmem, hnone'⟩ := ih ⟨k, hk', hnone⟩
      refine ⟨k', ?_, List.mem_cons_of_mem key hmem, hnone'⟩
      rw [mkAttrs, hv, herr]

theorem mkDoc_error_of_missing (model : String) (searchable : List String)
    (primary : String) (v : Record)
    (h : ∃ k ∈ searchable, alGet v.data k = none) :
    ∃ k', mkDoc model searchable primary v = .error (.missingSearchableField model k') ∧
      k' ∈ searchable ∧ alGet v.data k' = none := by
  obtain ⟨k', herr, hmem, hnone⟩ := mkAttrs_error_of_missing model v searchable h
  exact ⟨k', by rw [mkDoc, herr], hmem, hnone⟩

theorem writeChanges_error_of_member (model : String) (searchable : List String)
    (primary : String) (v : Record)
    (hbad : ∃ k ∈ searchable, alGet v.data k = none) :
    ∀ (pre post : List (Bool × Record)) (ix : List Doc),
      ∃ e, writeChanges model searchable primary (pre ++ (true, v) :: post) ix = .error e := by
  intro pre
  induction pre with
  | nil =>
    intro post ix
    obtain ⟨k', herr, _, _⟩ := mkDoc_error_of_missing model searchable primary v hbad
    refine ⟨.missingSearchableField model k', ?_⟩
    rw [List.nil_append, writeChanges, herr]
  | cons uw pre' ih =>
    intro post ix
    rcases uw with ⟨u, w⟩
    cases u with
    | true =>
      cases hd : mkDoc model searchable primary w with
      | error e =>
        refine ⟨e, ?_⟩
        rw [List.cons_append, writeChanges, hd]
      | ok d =>
        obtain ⟨e, he⟩ := ih post (update_document ix primary d)
        refine ⟨e, ?_⟩
        rw [List.cons_append, writeChanges, hd]
        exact he
    | false =>
      cases hp : alGet w.data primary with
      | none =>
        refine ⟨.attributeError, ?_⟩
        rw [List.cons_append, writeChanges, hp]
      | some pv =>
        obtain ⟨e, he⟩ := ih post (delete_by_term ix primary (toUnicode pv))
        refine ⟨e, ?_⟩
        rw [List.cons_append, writeChanges, hp]
        exact he

/-- C3: during index writing of an upsert batch, a record instance
lacking a declared searchable attribute makes the document build fail
with the searchable-field mismatch error naming a genuinely missing
searchable key, and every batch containing that upsert fails (the
record is not silently skipped; the loop has no handler, so the error
reaches the commit-notification caller). -/
theorem c3_missing_searchable_fatal (model : String) (searchable : List String)
    (primary : String) (v : Record) (key : String)
    (hk : key ∈ searchable) (hmiss : alGet v.data key = none) :
    (∃ k', mkDoc model searchable primary v =
        .error (.missingSearchableField model k') ∧
      k' ∈ searchable ∧ alGet v.data k' = none) ∧
    ∀ (pre post : List (Bool × Record)) (ix : List Doc),
      ∃ e, writeChanges model searchable primary (pre ++ (true, v) :: post) ix = .error e := by
  refine ⟨mkDoc_error_of_missing model searchable primary v ⟨key, hk, hmiss⟩, ?_⟩
  exact writeChanges_error_of_member model searchable primary v ⟨key, hk, hmiss⟩

/-- Record of `sampleClass` lacking the declared searchable attribute
`title`. -/
def sampleRecordMissing : Record :=
  { cls := sampleClass, data := [("id", Value.int 3), ("count", Value.int 0)] }

theorem c3_missing_searchable_fatal_witness :
    (∃ k', mkDoc "Article" ["title", "count"] "id" sampleRecordMissing =
        .error (.missingSearchableField "Article" k') ∧
      k' ∈ ["title", "count"] ∧ alGet sampleRecordMissing.data k' = none) ∧
    (∃ e, writeChanges "Article" ["title", "count"] "id"
        ([] ++ (true, sampleRecordMissing) :: []) [] = .error e) := by
  have h := c3_missing_searchable_fatal "Article" ["title", "count"] "id"
    sampleRecordMissing "title" (by decide) (by decide)
  exact ⟨h.1, h.2 [] [] []⟩

theorem update_document_filter_self (ix : List Doc) (primary : String)
    (doc : Doc) (pkv : String) (hd : alGet doc primary = some pkv) :
    (update_document ix primary doc).filter
      (fun d => alGet d primary == some pkv) = [doc] := by
  rw [update_document, hd]
  rw [List.filter_append]
  have h1 : (delete_by_term ix primary pkv).filter
      (fun d => alGet d primary == some pkv) = [] := by
    rw [delete_by_term, List.filter_filter]
    apply List.filter_eq_nil_iff.mpr
    intro d _
    cases hv : alGet d primary <;> simp [hv]
  have h2 : ([doc] : List Doc).filter (fun d => alGet d primary == some pkv) = [doc] := by
    simp [hd]
  rw [h1, h2]
  rfl

/-- C8: upserting two records with the same stringified primary key in
one batch succeeds and leaves exactly one document for that key in the
index, namely the document built entirely from the later record — the
earlier document (and any pre-existing document under that key) is
fully replaced, not merged. -/
theorem c8_upsert_replaces (model : String) (searchable : List String)
    (primary : String) (v1 v2 : Record) (d1 d2 : Doc) (pkv : String) (ix : List Doc)
    (h1 : mkDoc model searchable primary v1 = .ok d1)
    (h2 : mkDoc model searchable primary v2 = .ok d2)
    (hp1 : alGet d1 primary = some pkv) (hp2 : alGet d2 primary = some pkv) :
    writeChanges model searchable primary [(true, v1), (true, v2)] ix =
      .ok (update_document (update_document ix primary d1) primary d2) ∧
    (update_document (update_document ix primary d1) primary d2).filter
      (fun d => alGet d primary == some pkv) = [d2] := by
  constructor
  · simp only [writeChanges, h1, h2]
  · exact update_document_filter_self (update_document ix primary d1) primary d2 pkv hp2

/-- Two versions of the same record (same primary key, updated title). -/
def sampleRecordV1 : Record :=
  { cls := sampleClass
    data := [("id", Value.int 1), ("title", Value.str "red fox"), ("count", Value.int 5)] }

def sampleRecordV2 : Record :=
  { cls := sampleClass
    data := [("id", Value.int 1), ("title", Value.str "green fox"), ("count", Value.int 5)] }

def sampleDoc1 : Doc := [("title", "red fox"), ("count", "5"), ("id", "1")]

def sampleDoc2 : Doc := [("title", "green fox"), ("count", "5"), ("id", "1")]

theorem c8_upsert_replaces_witness :
    writeChanges "Article" ["title", "count"] "id"
        [(true, sampleRecordV1), (true, sampleRecordV2)] [] =
      .ok (update_document (update_document [] "id" sampleDoc1) "id" sampleDoc2) ∧
    (update_document (update_document [] "id" sampleDoc1) "id" sampleDoc2).filter
      (fun d => alGet d "id" == some "1") = [sampleDoc2] :=
  c8_upsert_replaces "Article" ["title", "count"] "id"
    sampleRecordV1 sampleRecordV2 sampleDoc1 sampleDoc2 "1" [] rfl rfl rfl rfl

/-- An opened whoosh index: its directory and schema. -/
structure Index where
  path : String
  schema : Schema
deriving DecidableEq, Repr

/-- The `_Searcher` object bound to a model class as `pure_whoosh`:
primary-key name, the wrapped index, and `all_fields` =
`list(set(schema keys) - set([primary]))` (a Python set difference whose
order is unspecified; membership is the only property used). -/
structure Searcher where
  primary_key_name : Option String
  index : Index
  all_fields : List String
deriving DecidableEq, Repr

/-- Models `_Searcher.__init__(primary, indx)`. -/
def mkSearcher (primary : Option String) (indx : Index) : Searcher :=
  { primary_key_name := primary
    index := indx
    all_fields := (indx.schema.map (·.1)).filter (fun f => !(some f == primary)) }

/-- The process-wide mutable state touched by `_whoosh_index`: the
`app.whoosh_indexes` cache (`none` models `hasattr` false), the
`WHOOSH_BASE` config entry, the on-disk indexes by directory, a counter
of `whoosh.index.create_in` calls, and the per-class installed
`pure_whoosh` searcher and count of query-proxy installations. -/
structure World where
  app_indexes : Option (List (String × Index))
  config_base : Option String
  disk : List (String × Index)
  created : Nat
  pure_whoosh : List (String × Searcher)
  query_installs : List (String × Nat)
deriving DecidableEq, Repr

/-- The `if not hasattr(app, 'whoosh_indexes'): app.whoosh_indexes = {}`
guard. -/
def normalizeIndexes (w : World) : World :=
  { w with app_indexes := some (w.app_indexes.getD []) }

/-- The effective `WHOOSH_BASE`: the config value, or the default
`'whoosh_index'` assigned when the value is falsy (absent or empty). -/
def whooshBase (w : World) : String :=
  match w.config_base with
  | none => "whoosh_index"
  | some b => if b == "" then "whoosh_index" else b

/-- Models the per-type index directory
`wi = os.path.join(base, model.__class__.__name__)`. -/
def indexDirOf (w : World) (name : String) : String :=
  whooshBase w ++ "/" ++ name

/-- Counts an installation of the query-interception proxy
(`model.__class__.query = _QueryProxy(...)`) on a class. -/
def bumpInstall (m : List (String × Nat)) (k : String) : List (String × Nat) :=
  alSet m k ((alGet m k).getD 0 + 1)

/-- The assignment block run on first access for a type:
`app.whoosh_indexes[name] = indx`, the query-proxy replacement, and
`model.__class__.pure_whoosh = searcher`. -/
def installModel (w : World) (name : String) (primary : Option String)
    (indx : Index) : World :=
  { w with
      app_indexes := some (alSet (w.app_indexes.getD []) name indx)
      query_installs := bumpInstall w.query_installs name
      pure_whoosh := alSet w.pure_whoosh name (mkSearcher primary indx) }

/-- Models `_whoosh_index(app, model)`: return the cached index handle
for the model's class name, or on first access derive the schema, open
the existing on-disk index under the per-type directory or create a new
one there, cache the handle and install the searcher and the query
proxy on the class. -/
def _whoosh_index (w : World) (model : Record) : World × Index :=
  let w0 := normalizeIndexes w
  match alGet (w0.app_indexes.getD []) model.cls.name with
  | some indx => (w0, indx)
  | none =>
    let w1 := { w0 with config_base := some (whooshBase w0) }
    let sp := _get_whoosh_schema_and_primary model.cls
    match alGet w1.disk (indexDirOf w1 model.cls.name) with
    | some existing => (installModel w1 model.cls.name sp.2 existing, existing)
    | none =>
      let newIx : Index := { path := indexDirOf w1 model.cls.name, schema := sp.1 }
      let w2 := { w1 with
        disk := alSet w1.disk (indexDirOf w1 model.cls.name) newIx
        created := w1.created + 1 }
      (installModel w2 model.cls.name sp.2 newIx, newIx)

theorem normalizeIndexes_getD (w : World) :
    (normalizeIndexes w).app_indexes.getD [] = w.app_indexes.getD [] := by
  simp [normalizeIndexes]

theorem normalizeIndexes_eq_self (w : World) (m : List (String × Index))
    (h : w.app_indexes = some m) : normalizeIndexes w = w := by
  rcases w with ⟨ai, cb, dk, cr, pw, qi⟩
  simp only at h
  subst h
  rfl

theorem whooshBase_empty_false (w : World) : (whooshBase w == "") = false := by
  cases h : w.config_base with
  | none => simp [whooshBase, h]
  | some b =>
    by_cases hb : (b == "") = true
    · simp [whooshBase, h, hb]
    · simp only [whooshBase, h, if_neg hb]
      simpa using hb

theorem whooshBase_of_config (w w' : World) (h : w'.config_base = some (whooshBase w)) :
    whooshBase w' = whooshBase w := by
  show (match w'.config_base with
    | none => "whoosh_index"
    | some b => if b == "" then "whoosh_index" else b) = whooshBase w
  rw [h]
  simp [whooshBase_empty_false w]

theorem whooshBase_congr (w w' : World) (h : w'.config_base = w.config_base) :
    whooshBase w' = whooshBase w := by
  unfold whooshBase
  rw [h]

theorem normalizeIndexes_idem (w : World) :
    normalizeIndexes (normalizeIndexes w) = normalizeIndexes w :=
  normalizeIndexes_eq_self (normalizeIndexes w) _ rfl

theorem whoosh_index_hit (w : World) (model : Record) (ix : Index)
    (h : alGet (w.app_indexes.getD []) model.cls.name = some ix) :
    _whoosh_index w model = (normalizeIndexes w, ix) := by
  simp only [_whoosh_index]
  rw [normalizeIndexes_getD, h]

theorem whoosh_index_hit' (w : World) (model : Record)
    (m : List (String × Index)) (ix : Index)
    (hm : w.app_indexes = some m) (h : alGet m model.cls.name = some ix) :
    _whoosh_index w model = (w, ix) := by
  rw [whoosh_index_hit w model ix (by rw [hm]; exact h)]
  rw [normalizeIndexes_eq_self w m hm]

theorem whoosh_index_miss_shape (w : World) (model : Record)
    (hmiss : alGet (w.app_indexes.getD []) model.cls.name = none) :
    _whoosh_index w model =
      (let w1 : World := { normalizeIndexes w with config_base := some (whooshBase w) }
       let sp := _get_whoosh_schema_and_primary model.cls
       match alGet w.disk (indexDirOf w model.cls.name) with
       | some existing => (installModel w1 model.cls.name sp.2 existing, existing)
       | none =>
         let newIx : Index := { path := indexDirOf w model.cls.name, schema := sp.1 }
         (installModel { w1 with
             disk := alSet w.disk (indexDirOf w model.cls.name) newIx
             created := w.created + 1 } model.cls.name sp.2 newIx, newIx)) := by
  simp only [_whoosh_index]
  rw [normalizeIndexes_getD, hmiss]
  rw [whooshBase_congr w (normalizeIndexes w) rfl]
  rw [show indexDirOf { normalizeIndexes w with config_base := some (whooshBase w) }
      model.cls.name = indexDirOf w model.cls.name from by
    unfold indexDirOf
    rw [whooshBase_of_config w _ rfl]]
  rfl

/-- C9: the index registry keeps at most one handle per record-type
name: a call with the handle cached returns it with the world
untouched (no index creation, no re-installation); after any call the
handle is cached under the type name, and an immediately repeated call
is the identity; a first access installs the bound searcher and the
query proxy and either opens the existing on-disk index under the
per-type directory (creation count unchanged) or creates a new index
with the derived schema there (creation count incremented). -/
theorem c9_registry_at_most_one_handle (w : World) (model : Record) :
    (∀ (m : List (String × Index)) (ix : Index),
      w.app_indexes = some m → alGet m model.cls.name = some ix →
      _whoosh_index w model = (w, ix)) ∧
    alGet ((_whoosh_index w model).1.app_indexes.getD []) model.cls.name =
      some (_whoosh_index w model).2 ∧
    _whoosh_index (_whoosh_index w model).1 model = _whoosh_index w model ∧
    (alGet (w.app_indexes.getD []) model.cls.name = none →
      alGet (_whoosh_index w model).1.pure_whoosh model.cls.name =
        some (mkSearcher (_get_whoosh_schema_and_primary model.cls).2
          (_whoosh_index w model).2) ∧
      alGet (_whoosh_index w model).1.query_installs model.cls.name =
        some ((alGet w.query_installs model.cls.name).getD 0 + 1) ∧
      ((alGet w.disk (indexDirOf w model.cls.name) = some (_whoosh_index w model).2 ∧
          (_whoosh_index w model).1.created = w.created) ∨
        (alGet w.disk (indexDirOf w model.cls.name) = none ∧
          (_whoosh_index w model).1.created = w.created + 1 ∧
          (_whoosh_index w model).2 =
            { path := indexDirOf w model.cls.name
              schema := (_get_whoosh_schema_and_primary model.cls).1 }))) := by
  refine ⟨?_, ?_⟩
  · intro m ix hm hx
    exact whoosh_index_hit' w model m ix hm hx
  cases hc : alGet (w.app_indexes.getD []) model.cls.name with
  | some ix =>
    have hres := whoosh_index_hit w model ix hc
    refine ⟨?_, ?_, ?_⟩
    · rw [hres, normalizeIndexes_getD, hc]
    · rw [hres]
      show _whoosh_index (normalizeIndexes w) model = (normalizeIndexes w, ix)
      rw [whoosh_index_hit (normalizeIndexes w) model ix
        (by rw [normalizeIndexes_getD]; exact hc)]
      rw [normalizeIndexes_idem]
    · intro hnone
      exact Option.noConfusion hnone
  | none =>
    have hres := whoosh_index_miss_shape w model hc
    cases hd : alGet w.disk (indexDirOf w model.cls.name) with
    | some existing =>
      simp only [hd] at hres
      refine ⟨?_, ?_, ?_⟩
      · rw [hres]
        simp [installModel, alGet_alSet_self]
      · rw [hres]
        exact whoosh_index_hit' _ model _ existing rfl (alGet_alSet_self _ _ _)
      · intro _
        refine ⟨?_, ?_, ?_⟩
        · rw [hres]
          simp [installModel, alGet_alSet_self, normalizeIndexes]
        · rw [hres]
          simp [installModel, bumpInstall, alGet_alSet_self, normalizeIndexes]
        · rw [hres]
          exact Or.inl ⟨rfl, by simp [installModel, normalizeIndexes]⟩
    | none =>
      simp only [hd] at hres
      refine ⟨?_, ?_, ?_⟩
      · rw [hres]
        simp [installModel, alGet_alSet_self]
      · rw [hres]
        exact whoosh_index_hit' _ model _ _ rfl (alGet_alSet_self _ _ _)
      · intro _
        refine ⟨?_, ?_, ?_⟩
        · rw [hres]
          simp [installModel, alGet_alSet_self, normalizeIndexes]
        · rw [hres]
          simp [installModel, bumpInstall, alGet_alSet_self, normalizeIndexes]
        · rw [hres]
          refine Or.inr ⟨rfl, ?_, rfl⟩
          simp [installModel, normalizeIndexes]

/-- A world with no registry state, no config and an empty disk. -/
def emptyWorld : World :=
  { app_indexes := none
    config_base := none
    disk := []
    created := 0
    pure_whoosh := []
    query_installs := [] }

/-- An index handle used to pre-fill a registry cache. -/
def someIx : Index := { path := "p", schema := [] }

/-- A world whose registry already caches a handle for `Article`. -/
def filledWorld : World :=
  { emptyWorld with app_indexes := some [("Article", someIx)] }

theorem c9_registry_at_most_one_handle_witness :
    _whoosh_index filledWorld sampleRecordV1 = (filledWorld, someIx) ∧
    alGet ((_whoosh_index emptyWorld sampleRecordV1).1.app_indexes.getD [])
        "Article" = some (_whoosh_index emptyWorld sampleRecordV1).2 ∧
    _whoosh_index (_whoosh_index emptyWorld sampleRecordV1).1 sampleRecordV1 =
      _whoosh_index emptyWorld sampleRecordV1 ∧
    (_whoosh_index emptyWorld sampleRecordV1).1.created = 1 := by
  have hE := c9_registry_at_most_one_handle emptyWorld sampleRecordV1
  have hF := c9_registry_at_most_one_handle filledWorld sampleRecordV1
  refine ⟨hF.1 [("Article", someIx)] someIx rfl rfl, hE.2.1, hE.2.2.1, ?_⟩
  have hD := hE.2.2.2 rfl
  rcases hD.2.2 with ⟨hdisk, _⟩ | ⟨_, hcr, _⟩
  · exact Option.noConfusion hdisk
  · exact hcr

/-- Proxy with no rank map attached (the class-level state before any
search). -/
def sampleProxyPlain : QueryProxy :=
  { sampleProxy with _whoosh_rank := none }

theorem c4_search_restricts_and_ranks_witness :
    (sampleProxyPlain.whoosh_search (Value.str "fox") none none false)._whoosh_rank =
      some (buildRanks ["2", "1"]) ∧
    alGet (buildRanks ["2", "1"]) "1" = some 1 ∧
    alGet (buildRanks ["2", "1"]) "7" = none := by
  have h := c4_search_restricts_and_ranks sampleProxyPlain (Value.str "fox")
    none none false ["2", "1"] rfl (by decide) (by decide)
  exact ⟨h.2.1, h.2.2.1 1 "1" rfl, h.2.2.2 "7" (by decide)⟩

/-- Searcher returning zero hits. -/
def sampleSearcherEmpty : SearchFn := fun _ _ _ _ => []

/-- Proxy whose searcher finds nothing. -/
def sampleProxyNoHits : QueryProxy :=
  { sampleProxy with _whoosh_searcher := sampleSearcherEmpty }

theorem c5_zero_hits_zero_rows_witness :
    (sampleProxyNoHits.whoosh_search (Value.str "nothing") none none false).iter
        [sampleRow1, sampleRow2] = .ok [] ∧
    (sampleProxyNoHits.whoosh_search (Value.str "nothing") none none false).pred
        sampleRow1 = false := by
  have h := c5_zero_hits_zero_rows sampleProxyNoHits (Value.str "nothing")
    none none false [sampleRow1, sampleRow2] rfl
  exact ⟨h.1, h.2 sampleRow1⟩

end FWA
